import Mathlib

/-!
Shallow embedding of the MAPPED-batch repository's three scripts:

* `clean_metadata_file.py`   (MetadataCleaner)
* `create_batch_samplesheet.py` (SamplesheetBuilder)
* `merge_batch_results.py`   (MatrixMerger)

Tables are modelled as lists of association-list rows (pandas DataFrames),
strings as Lean `String` operating on their character lists, numeric cells
as `Option ℚ` (with `none` playing the role of pandas `NaN`), and the file
system seen by the merger as explicit lists of existing directories and
parsed csv files.  Python string operations (`split`, `strip`, `upper`,
`lower`, `in`, `';'.join`) are embedded character-by-character; `upper` and
`lower` are modelled on the ASCII range, which is the range exercised by
the data these scripts handle.
-/

namespace Mapped

/-! ### Generic association list / list utilities -/

/-- First-match association list lookup (dict / `DataFrame` column access). -/
def alookup {α : Type} : List (String × α) → String → Option α
  | [], _ => none
  | (k, v) :: rest, q => if k = q then some v else alookup rest q

/-- Index of the first occurrence of `s` in `l` (pandas column position). -/
def idxOf : List String → String → Option Nat
  | [], _ => none
  | c :: rest, s => if c = s then some 0 else (idxOf rest s).map (· + 1)

/-- Insertion into a list sorted by the boolean relation `le`. -/
def insertBy {α : Type} (le : α → α → Bool) (x : α) : List α → List α
  | [] => [x]
  | y :: ys => if le x y then x :: y :: ys else y :: insertBy le x ys

/-- Insertion sort by the boolean relation `le`. -/
def sortBy {α : Type} (le : α → α → Bool) : List α → List α
  | [] => []
  | x :: xs => insertBy le x (sortBy le xs)

/-! ### Python string primitives -/

/-- Python `str.split(sep)` for a single-character separator, on char lists:
`''.split(';') = ['']`, `'a;;b'.split(';') = ['a','','b']`. -/
def splitOnChar (sep : Char) : List Char → List (List Char)
  | [] => [[]]
  | c :: rest =>
    match splitOnChar sep rest with
    | [] => [[]]
    | h :: t => if c = sep then [] :: h :: t else (c :: h) :: t

/-- Python `str.split()` (no argument): split on whitespace runs, dropping
empty tokens. -/
def splitWsChars : List Char → List (List Char)
  | [] => []
  | c :: rest =>
    if c.isWhitespace then splitWsChars rest
    else
      match rest with
      | [] => [[c]]
      | d :: _ =>
        if d.isWhitespace then [c] :: splitWsChars rest
        else
          match splitWsChars rest with
          | [] => [[c]]
          | h :: t => (c :: h) :: t

/-- Python `s.split(';')` on strings. -/
def pySplitSemi (s : String) : List String :=
  (splitOnChar ';' s.data).map fun cs => String.mk cs

/-- Python `s.split()` on strings. -/
def splitWsStr (s : String) : List String :=
  (splitWsChars s.data).map fun cs => String.mk cs

/-- Python `';'.join(xs)`. -/
def joinSemi : List String → String
  | [] => ""
  | [x] => x
  | x :: xs => x ++ ";" ++ joinSemi xs

/-- Python `s.strip()`: remove leading and trailing whitespace. -/
def pyStrip (s : String) : String :=
  String.mk (((s.data.dropWhile Char.isWhitespace).reverse.dropWhile Char.isWhitespace).reverse)

/-- Python `s.upper()` (ASCII). -/
def pyUpper (s : String) : String := String.mk (s.data.map Char.toUpper)

/-- Python `s.lower()` (ASCII). -/
def pyLower (s : String) : String := String.mk (s.data.map Char.toLower)

/-- Python `needle in haystack` substring test. -/
def pyIn (needle hay : String) : Bool :=
  (List.range (hay.data.length + 1)).any fun i => needle.data.isPrefixOf (hay.data.drop i)

/-- Lexicographic comparison of char lists (kernel-reducible string order,
used only to fix the order in which group keys are listed). -/
def lexLe : List Char → List Char → Bool
  | [], _ => true
  | _ :: _, [] => false
  | a :: as, b :: bs => if a = b then lexLe as bs else decide (a < b)

/-- String order used for the group-key ordering. -/
def strLeB (a b : String) : Bool := lexLe a.data b.data

/-! ### MatrixMerger: expression matrices (`merge_batch_results.py`)

An `ExprMatrix` is a csv read with `index_col=0`: an ordered list of sample
columns and an ordered list of gene rows, each row carrying one `Option ℚ`
value per column (`none` = `NaN`). -/

structure ExprMatrix where
  cols : List String
  rows : List (String × List (Option ℚ))
deriving DecidableEq

/-- The row (gene) keys of a matrix, in order. -/
def ExprMatrix.keys (m : ExprMatrix) : List String := m.rows.map Prod.fst

/-- `pd.merge(a, b, left_index=True, right_index=True, how='outer')` for
matrices with non-colliding column names: the column list is `a`'s columns
followed by `b`'s, the key set is the union, and cells missing from one
side become `NaN`.  (pandas additionally sorts the outer-join keys; the
properties proved below are about the key set and the cell values, so the
merged rows are kept in left-then-new-right order.) -/
def mergeOuter (a b : ExprMatrix) : ExprMatrix where
  cols := a.cols ++ b.cols
  rows :=
    (a.rows.map fun p =>
      (p.1, p.2 ++ (alookup b.rows p.1).getD (List.replicate b.cols.length none)))
    ++ ((b.rows.filter fun p => (alookup a.rows p.1).isNone).map fun p =>
      (p.1, List.replicate a.cols.length none ++ p.2))

/-- `df.fillna(0)`. -/
def fillZero (m : ExprMatrix) : ExprMatrix where
  cols := m.cols
  rows := m.rows.map fun p => (p.1, p.2.map fun v => some (v.getD 0))

/-- The accumulation loop: `all_x` starts as the first batch's matrix and
each later batch is outer-merged into it. -/
def mergeFold : ExprMatrix → List ExprMatrix → ExprMatrix
  | a, [] => a
  | a, m :: rest => mergeFold (mergeOuter a m) rest

/-- Merging one kind across a list of batches: `None` when no batch
contributed, otherwise the outer-merged and zero-filled matrix. -/
def mergeAll : List ExprMatrix → Option ExprMatrix
  | [] => none
  | m :: rest => some (fillZero (mergeFold m rest))

/-- Cell access: `some v` when gene `g` and sample `s` are present (`v` is
the stored `Option ℚ`, `none` meaning `NaN`), `none` when the row or the
column does not exist. -/
def cellAt (m : ExprMatrix) (g s : String) : Option (Option ℚ) :=
  match alookup m.rows g, idxOf m.cols s with
  | some vs, some i => vs[i]?
  | _, _ => none

/-- Well-formed csv matrix: every row has one value per column, gene keys
are distinct, column names are distinct. -/
def ExprMatrix.WF (m : ExprMatrix) : Prop :=
  (∀ p ∈ m.rows, p.2.length = m.cols.length) ∧ m.keys.Nodup ∧ m.cols.Nodup

/-- No `NaN` cell in an input matrix. -/
def noNaN (m : ExprMatrix) : Prop := ∀ p ∈ m.rows, ∀ v ∈ p.2, v ≠ none

/-- Sample columns of `a` and `b` do not collide. -/
def colsDisjoint (a b : ExprMatrix) : Prop := ∀ s, s ∈ a.cols → s ∉ b.cols

instance (m : ExprMatrix) : Decidable m.WF :=
  inferInstanceAs (Decidable
    ((∀ p ∈ m.rows, p.2.length = m.cols.length) ∧ m.keys.Nodup ∧ m.cols.Nodup))

instance (m : ExprMatrix) : Decidable (noNaN m) :=
  inferInstanceAs (Decidable (∀ p ∈ m.rows, ∀ v ∈ p.2, v ≠ none))

instance (a b : ExprMatrix) : Decidable (colsDisjoint a b) :=
  inferInstanceAs (Decidable (∀ s, s ∈ a.cols → s ∉ b.cols))

/-- The spec's two-batch example: batch A with genes g1, g2 in sample
column a1. -/
def exMatA : ExprMatrix := ⟨["a1"], [("g1", [some 1]), ("g2", [some 2])]⟩

/-- The spec's two-batch example: batch B with genes g2, g3 in sample
column b1. -/
def exMatB : ExprMatrix := ⟨["b1"], [("g2", [some 3]), ("g3", [some 4])]⟩

/-- The spec's samplesheet example metadata row (`Run="SRR1;SRR2"`,
`LibraryLayout=PAIRED`). -/
def exSheetRow : List (String × String) := [("Run", "SRR1;SRR2"), ("LibraryLayout", "PAIRED")]

/-- Loop invariant for the accumulation: `acc` is the outer merge of the
already-processed matrices `ms` — well-formed, columns and keys the union
of those of `ms`, and each cell either copied from its source matrix or a
`NaN` placeholder for a gene the source batch lacks. -/
def MergedInv (ms : List ExprMatrix) (acc : ExprMatrix) : Prop :=
  acc.WF ∧
  (∀ s, s ∈ acc.cols ↔ ∃ m ∈ ms, s ∈ m.cols) ∧
  (∀ g, g ∈ acc.keys ↔ ∃ m ∈ ms, g ∈ m.keys) ∧
  (∀ m ∈ ms, ∀ s ∈ m.cols, ∀ g,
    cellAt acc g s =
      if g ∈ m.keys then cellAt m g s
      else if g ∈ acc.keys then some none else none)

/-! ### MatrixMerger: directory walk and outputs -/

/-- The file system seen by the merger: existing directories, and csv files
(by path) that parse to a matrix. -/
structure FS where
  dirs : List String
  files : List (String × ExprMatrix)

/-- The three matrix kinds handled by the merger. -/
inductive MKind where
  | tpm
  | log_tpm
  | counts
deriving DecidableEq

/-- Source file name for each kind. -/
def kindFile : MKind → String
  | .tpm => "tpm.csv"
  | .log_tpm => "log_tpm.csv"
  | .counts => "counts.csv"

/-- Human label used in the summary line. -/
def kindLabel : MKind → String
  | .tpm => "TPM"
  | .log_tpm => "log TPM"
  | .counts => "counts"

/-- The order in which the script handles the kinds. -/
def kindOrder : List MKind := [.tpm, .log_tpm, .counts]

/-- The three accumulators `all_tpm`, `all_log_tpm`, `all_counts`. -/
abbrev MergeState := MKind → Option ExprMatrix

/-- All three accumulators start as `None`. -/
def initState : MergeState := fun _ => none

/-- `expr_dir = os.path.join(batch_dir, 'expression_matrices')` followed by
the script's fallback: when the subdirectory is absent, both arms of
`batch_dir if 'expression_matrices' in batch_dir else batch_dir` yield the
batch directory itself (the conditional is kept verbatim). -/
def resolveExprDir (fs : FS) (d : String) : String :=
  let exprDir := d ++ "/expression_matrices"
  if exprDir ∈ fs.dirs then exprDir
  else if pyIn "expression_matrices" d then d else d

/-- Read the csv of kind `k` from directory `dir`, `none` when absent. -/
def readKind (fs : FS) (dir : String) (k : MKind) : Option ExprMatrix :=
  alookup fs.files (dir ++ "/" ++ kindFile k)

/-- The warning printed for a missing batch directory. -/
def warnMsg (d : String) : String :=
  "Warning: Batch directory " ++ d ++ " not found"

/-- One iteration of the batch loop: a missing directory yields a warning
and leaves the accumulators unchanged; otherwise each kind found in the
resolved source directory is taken as-is (first batch) or outer-merged. -/
def stepBatch (fs : FS) (st : MergeState) (d : String) : MergeState × List String :=
  if d ∈ fs.dirs then
    (fun k =>
      match st k, readKind fs (resolveExprDir fs d) k with
      | none, none => none
      | none, some m => some m
      | some a, none => some a
      | some a, some m => some (mergeOuter a m), [])
  else (st, [warnMsg d])

/-- The batch loop, threading the accumulators and collecting warnings. -/
def runMergeAux (fs : FS) (st : MergeState) : List String → MergeState × List String
  | [] => (st, [])
  | d :: rest =>
    let p := stepBatch fs st d
    let q := runMergeAux fs p.1 rest
    (q.1, p.2 ++ q.2)

/-- The whole batch loop from the initial (empty) state. -/
def runMerge (fs : FS) (dirs : List String) : MergeState × List String :=
  runMergeAux fs initState dirs

/-- Output file name for each kind: `f'{output_prefix}_tpm.csv'` etc. -/
def outName (pfx : String) : MKind → String
  | .tpm => pfx ++ "_tpm.csv"
  | .log_tpm => pfx ++ "_log_tpm.csv"
  | .counts => pfx ++ "_counts.csv"

/-- The matrix files written by one run: for each kind whose accumulator is
not `None`, the zero-filled matrix under its output name. -/
def mergeOutputs (fs : FS) (dirs : List String) (pfx : String) :
    List (String × ExprMatrix) :=
  kindOrder.filterMap fun k =>
    ((runMerge fs dirs).1 k).map fun a => (outName pfx k, fillZero a)

/-- One summary line, computed from the zero-filled matrix shape. -/
def summaryLine (k : MKind) (m : ExprMatrix) : String :=
  "Merged " ++ kindLabel k ++ " matrix: " ++ toString m.rows.length ++
    " genes x " ++ toString m.cols.length ++ " samples"

/-- Content of `merge_summary.txt`: `'\n'.join(summary)`. -/
def mergeSummary (fs : FS) (dirs : List String) : String :=
  String.intercalate "\n"
    (kindOrder.filterMap fun k =>
      ((runMerge fs dirs).1 k).map fun a => summaryLine k (fillZero a))

/-! ### MetadataCleaner (`clean_metadata_file.py`)

A metadata row is an association list from column name to cell value; a
table is a list of rows sharing a column list.  Pandas raises on access to
a missing required column; `getVal` totalises that access with `""`. -/

abbrev Row := List (String × String)

/-- Cell access on a row; absent columns read as the empty string. -/
def getVal (r : Row) (c : String) : String := (alookup r c).getD ""

/-- `row.get(c, d)` with an explicit default. -/
def getValD (r : Row) (c d : String) : String := (alookup r c).getD d

/-- `DF_SRR[~DF_SRR.Run.isin(["", "Run"])]`. -/
def keptRows (rows : List Row) : List Row :=
  rows.filter fun r => !(getVal r "Run" == "" || getVal r "Run" == "Run")

/-- The experiment accession of a row. -/
def expOf (r : Row) : String := getVal r "Experiment"

/-- The rows of one group-by group, in original order. -/
def groupRows (rows : List Row) (e : String) : List Row :=
  rows.filter fun r => getVal r "Experiment" == e

/-- The `"last"` aggregation: last value of column `c` within the group. -/
def lastVal (grp : List Row) (c : String) : String :=
  (grp.map fun r => getVal r c).getLastD ""

/-- The aggregated row of one group: `";".join` for the `Run` column,
`"last"` for every other column. -/
def aggRow (cols : List String) (grp : List Row) : Row :=
  cols.map fun c =>
    (c, if c == "Run" then joinSemi (grp.map fun r => getVal r "Run") else lastVal grp c)

/-- `DF_SRR.groupby("Experiment").agg(agg_rules)` over the kept rows,
followed by `set_index("Experiment")`: one `(experiment, aggregated row)`
pair per distinct experiment accession (group keys listed in sorted
order, as pandas does). -/
def groupAgg (cols : List String) (rows : List Row) : List (String × Row) :=
  (sortBy strLeB (((keptRows rows).map expOf).dedup)).map fun e =>
    (e, aggRow cols (groupRows (keptRows rows) e))

/-- Digits-only parse of a char list to a number. -/
def digitsToNat (cs : List Char) : Option Nat :=
  if cs ≠ [] ∧ cs.all Char.isDigit then
    some (cs.foldl (fun n c => n * 10 + (c.toNat - 48)) 0)
  else none

/-- Gregorian leap year. -/
def isLeap (y : Nat) : Bool := (y % 4 == 0 && y % 100 != 0) || y % 400 == 0

/-- Days in a month. -/
def daysInMonth (y m : Nat) : Nat :=
  if m = 2 then (if isLeap y then 29 else 28)
  else if m = 4 ∨ m = 6 ∨ m = 9 ∨ m = 11 then 30 else 31

/-- `pd.to_datetime(s, format='%Y-%m-%d', errors='coerce')`: `none` is the
`NaT` sentinel, a valid date is encoded as `y*10000 + m*100 + d` (an
encoding that orders dates chronologically). -/
def parseDate (s : String) : Option Nat :=
  match splitOnChar '-' s.data with
  | [ys, ms, ds] =>
    match digitsToNat ys, digitsToNat ms, digitsToNat ds with
    | some y, some m, some d =>
      if ys.length = 4 ∧ ms.length ≤ 2 ∧ ds.length ≤ 2 ∧
          1 ≤ m ∧ m ≤ 12 ∧ 1 ≤ d ∧ d ≤ daysInMonth y m
      then some (y * 10000 + m * 100 + d) else none
    | _, _, _ => none
  | _ => none

/-- Sort key order for `sort_values('ReleaseDate', ascending=False)`:
later dates first, `NaT` (`none`) after every valid date. -/
def dateKeyGeB (a b : Option Nat) : Bool :=
  match a, b with
  | some x, some y => decide (y ≤ x)
  | some _, none => true
  | none, some _ => false
  | none, none => true

/-- The `ReleaseDate` step (applied by the script when the column exists):
replace the column by its coerced parse and sort descending with `NaT`
last.  Each output pair is (parsed key, row). -/
def releaseSort (rows : List Row) : List (Option Nat × Row) :=
  sortBy (fun p q => dateKeyGeB p.1 q.1)
    (rows.map fun r => (parseDate (getVal r "ReleaseDate"), r))

/-- The `LibraryLayout` filter (applied by the script when the column
exists), keyed on the CLI `--layout` string. -/
def layoutFilter (layout : String) (rows : List Row) : List Row :=
  if pyLower layout == "paired" then
    rows.filter fun r => pyUpper (getVal r "LibraryLayout") == "PAIRED"
  else if pyLower layout == "single" then
    rows.filter fun r => pyUpper (getVal r "LibraryLayout") == "SINGLE"
  else
    rows.filter fun r => ["PAIRED", "SINGLE"].contains (pyUpper (getVal r "LibraryLayout"))

/-- `match_tokens` from the script: some whitespace token of `name`,
lowercased, equals the (already lowercased) query or contains it as a
substring. -/
def match_tokens (qlower : String) (name : String) : Bool :=
  (splitWsStr name).any fun t => pyLower t == qlower || pyIn qlower (pyLower t)

/-- The strain filter (applied by the script when the `ScientificName`
column exists): inert for a falsy strain or a strain that strips to
nothing, otherwise a row filter by `match_tokens` against the lowercased,
stripped strain. -/
def strainFilter (strain : String) (rows : List Row) : List Row :=
  if strain == "" then rows
  else if pyStrip strain == "" then rows
  else rows.filter fun r =>
    match_tokens (pyLower (pyStrip strain)) (getVal r "ScientificName")

/-! ### SamplesheetBuilder (`create_batch_samplesheet.py`) -/

structure SheetRow where
  id : String
  run_accession : String
  experiment_accession : String
  fastq_1 : String
  fastq_2 : String
  layout : String
deriving DecidableEq

/-- One samplesheet entry for run `rid` of experiment `sid`: layout read
with default `'SINGLE'` and uppercased; `PAIRED` yields two fastq paths,
anything else the single-end shape. -/
def mkEntry (sid : String) (row : Row) (rid : String) : SheetRow :=
  if pyUpper (getValD row "LibraryLayout" "SINGLE") == "PAIRED" then
    { id := sid ++ "_" ++ rid
      run_accession := rid
      experiment_accession := sid
      fastq_1 := "seqFiles/" ++ rid ++ "_1.fastq.gz"
      fastq_2 := "seqFiles/" ++ rid ++ "_2.fastq.gz"
      layout := pyLower (pyUpper (getValD row "LibraryLayout" "SINGLE")) }
  else
    { id := sid ++ "_" ++ rid
      run_accession := rid
      experiment_accession := sid
      fastq_1 := "seqFiles/" ++ rid ++ ".fastq.gz"
      fastq_2 := ""
      layout := pyLower (pyUpper (getValD row "LibraryLayout" "SINGLE")) }

/-- The entries emitted for one metadata row: split `Run` on `';'`, strip
each piece, skip blanks. -/
def entriesFor (sid : String) (row : Row) : List SheetRow :=
  (pySplitSemi (getVal row "Run")).filterMap fun raw =>
    let rid := pyStrip raw
    if rid == "" then none else some (mkEntry sid row rid)

/-- The whole samplesheet: restrict metadata to the batch ids, then emit
the entries of each retained row in order. -/
def buildSamplesheet (meta : List (String × Row)) (batch : List String) :
    List SheetRow :=
  (meta.filter fun p => batch.contains p.1).flatMap fun p => entriesFor p.1 p.2

/-! ## Generic lemmas -/

theorem strMk_data (s : String) : String.mk s.data = s := rfl

theorem alookup_isSome_iff {α : Type} (l : List (String × α)) (k : String) :
    (alookup l k).isSome ↔ k ∈ l.map Prod.fst := by
  induction l with
  | nil => simp [alookup]
  | cons p rest ih =>
    by_cases h : p.1 = k
    · simp [alookup, h]
    · simpa [alookup, h, Ne.symm h] using ih

theorem alookup_eq_none_iff {α : Type} (l : List (String × α)) (k : String) :
    alookup l k = none ↔ k ∉ l.map Prod.fst := by
  rw [← alookup_isSome_iff, Option.isSome_iff_ne_none]
  tauto

theorem alookup_mem {α : Type} {l : List (String × α)} {k : String} {v : α}
    (h : alookup l k = some v) : (k, v) ∈ l := by
  induction l with
  | nil => simp [alookup] at h
  | cons p rest ih =>
    obtain ⟨k', v'⟩ := p
    by_cases hp : k' = k
    · rw [alookup, if_pos hp] at h
      injection h with h
      subst h
      subst hp
      exact List.mem_cons_self _ _
    · rw [alookup, if_neg hp] at h
      exact List.mem_cons_of_mem _ (ih h)

theorem alookup_map {β γ : Type} (f : String → β → γ) (l : List (String × β)) (k : String) :
    alookup (l.map fun p => (p.1, f p.1 p.2)) k = (alookup l k).map (f k) := by
  induction l with
  | nil => simp [alookup]
  | cons p rest ih =>
    by_cases h : p.1 = k
    · subst h; simp [alookup]
    · simp [alookup, h, ih]

theorem alookup_append {α : Type} (l l' : List (String × α)) (k : String) :
    alookup (l ++ l') k =
      match alookup l k with
      | some v => some v
      | none => alookup l' k := by
  induction l with
  | nil => simp [alookup]
  | cons p rest ih =>
    by_cases h : p.1 = k
    · simp [alookup, h]
    · simp [alookup, h, ih]

theorem alookup_filter_key {α : Type} (Q : String → Bool) (l : List (String × α)) (k : String) :
    alookup (l.filter fun p => Q p.1) k = if Q k then alookup l k else none := by
  induction l with
  | nil => simp [alookup]
  | cons p rest ih =>
    by_cases h : p.1 = k
    · subst h
      by_cases hq : Q p.1
      · simp [alookup, hq, List.filter_cons]
      · simp only [List.filter_cons]
        rw [if_neg (by simp [hq])]
        simp [ih, hq]
    · by_cases hq : Q p.1 <;> simp [List.filter_cons, hq, alookup, h, ih]

theorem idxOf_isSome_iff (l : List String) (s : String) :
    (idxOf l s).isSome ↔ s ∈ l := by
  induction l with
  | nil => simp [idxOf]
  | cons c rest ih =>
    by_cases h : c = s
    · simp [idxOf, h]
    · simpa [idxOf, h, Ne.symm h] using ih

theorem idxOf_lt_length {l : List String} {s : String} {i : Nat}
    (h : idxOf l s = some i) : i < l.length := by
  induction l generalizing i with
  | nil => simp [idxOf] at h
  | cons c rest ih =>
    by_cases hc : c = s
    · rw [idxOf, if_pos hc] at h
      injection h with h
      subst h
      simp
    · rw [idxOf, if_neg hc] at h
      cases hj : idxOf rest s with
      | none =>
        rw [hj] at h
        exact absurd h (by simp)
      | some j =>
        rw [hj] at h
        injection h with h
        subst h
        have := ih hj
        simp only [List.length_cons]
        omega

theorem idxOf_append_left {l : List String} (l' : List String) {s : String}
    (h : s ∈ l) : idxOf (l ++ l') s = idxOf l s := by
  induction l with
  | nil => simp at h
  | cons c rest ih =>
    by_cases hc : c = s
    · simp [idxOf, hc]
    · have hs : s ∈ rest := by
        rcases List.mem_cons.mp h with h1 | h1
        · exact absurd h1.symm hc
        · exact h1
      simp [idxOf, hc, ih hs]

theorem idxOf_append_right {l : List String} (l' : List String) {s : String}
    (h : s ∉ l) : idxOf (l ++ l') s = (idxOf l' s).map (· + l.length) := by
  induction l with
  | nil => simp [idxOf]
  | cons c rest ih =>
    have hc : c ≠ s := fun hcs => h (by simp [hcs])
    have hs : s ∉ rest := fun hr => h (by simp [hr])
    rw [List.cons_append, idxOf, if_neg hc, ih hs, Option.map_map]
    cases idxOf l' s with
    | none => rfl
    | some j =>
      simp only [Option.map_some, Function.comp, List.length_cons]
      congr 1

theorem splitOnChar_ne_nil (sep : Char) (l : List Char) : splitOnChar sep l ≠ [] := by
  cases l with
  | nil => simp [splitOnChar]
  | cons c rest =>
    rw [splitOnChar]
    cases h : splitOnChar sep rest with
    | nil => simp
    | cons a t =>
      by_cases hc : c = sep <;> simp [hc]

theorem splitOnChar_no_sep {sep : Char} {l : List Char} (h : sep ∉ l) :
    splitOnChar sep l = [l] := by
  induction l with
  | nil => rfl
  | cons c rest ih =>
    have hc : c ≠ sep := fun hcs => h (by simp [hcs])
    have hs : sep ∉ rest := fun hr => h (by simp [hr])
    rw [splitOnChar, ih hs]
    simp [hc]

theorem splitOnChar_append {sep : Char} {a : List Char} (b : List Char) (h : sep ∉ a) :
    splitOnChar sep (a ++ sep :: b) = a :: splitOnChar sep b := by
  induction a with
  | nil =>
    rw [List.nil_append, splitOnChar]
    cases hb : splitOnChar sep b with
    | nil => exact absurd hb (splitOnChar_ne_nil sep b)
    | cons x t => simp
  | cons c a' ih =>
    have hc : c ≠ sep := fun hcs => h (by simp [hcs])
    have hs : sep ∉ a' := fun hr => h (by simp [hr])
    rw [List.cons_append, splitOnChar, ih hs]
    simp [hc]

theorem pySplitSemi_joinSemi {xs : List String} (h0 : xs ≠ [])
    (h : ∀ x ∈ xs, ';' ∉ x.data) : pySplitSemi (joinSemi xs) = xs := by
  induction xs with
  | nil => exact absurd rfl h0
  | cons x xs ih =>
    cases xs with
    | nil =>
      have hx : ';' ∉ x.data := h x (by simp)
      simp [joinSemi, pySplitSemi, splitOnChar_no_sep hx, strMk_data]
    | cons y ys =>
      have hx : ';' ∉ x.data := h x (by simp)
      have hsemi : (";" : String).data = [';'] := rfl
      have hdata : (joinSemi (x :: y :: ys)).data =
          x.data ++ ';' :: (joinSemi (y :: ys)).data := by
        show (x ++ ";" ++ joinSemi (y :: ys)).data = _
        rw [String.data_append, String.data_append, hsemi, List.append_assoc,
          List.singleton_append]
      have ihr : pySplitSemi (joinSemi (y :: ys)) = y :: ys :=
        ih (by simp) (fun z hz => h z (by simp [hz]))
      unfold pySplitSemi at ihr ⊢
      rw [hdata, splitOnChar_append _ hx]
      simp only [List.map_cons, strMk_data]
      rw [ihr]

theorem mem_insertBy {α : Type} (le : α → α → Bool) (x y : α) (l : List α) :
    y ∈ insertBy le x l ↔ y = x ∨ y ∈ l := by
  induction l with
  | nil => simp [insertBy]
  | cons z zs ih =>
    by_cases h : le x z
    · rw [insertBy, if_pos h]
      simp only [List.mem_cons]
    · rw [insertBy, if_neg h]
      simp only [List.mem_cons, ih]
      tauto

theorem perm_insertBy {α : Type} (le : α → α → Bool) (x : α) (l : List α) :
    (insertBy le x l).Perm (x :: l) := by
  induction l with
  | nil => simp [insertBy]
  | cons z zs ih =>
    by_cases h : le x z
    · simp [insertBy, h]
    · rw [insertBy, if_neg h]
      exact (ih.cons z).trans (List.Perm.swap x z zs)

theorem perm_sortBy {α : Type} (le : α → α → Bool) (l : List α) :
    (sortBy le l).Perm l := by
  induction l with
  | nil => simp [sortBy]
  | cons x xs ih =>
    exact (perm_insertBy le x (sortBy le xs)).trans (ih.cons x)

theorem pairwise_insertBy {α : Type} {le : α → α → Bool}
    (htot : ∀ a b, le a b = true ∨ le b a = true)
    (htr : ∀ a b c, le a b = true → le b c = true → le a c = true)
    (x : α) {l : List α} (hp : List.Pairwise (fun a b => le a b = true) l) :
    List.Pairwise (fun a b => le a b = true) (insertBy le x l) := by
  induction l with
  | nil => simp [insertBy]
  | cons z zs ih =>
    rcases List.pairwise_cons.mp hp with ⟨hz, hzs⟩
    by_cases h : le x z
    · rw [insertBy, if_pos h]
      refine List.Pairwise.cons ?_ hp
      intro b hb
      rcases List.mem_cons.mp hb with hb | hb
      · subst hb; exact h
      · exact htr x z b h (hz b hb)
    · rw [insertBy, if_neg h]
      have hzx : le z x = true := by
        rcases htot x z with h1 | h1
        · exact absurd h1 h
        · exact h1
      refine List.Pairwise.cons ?_ (ih hzs)
      intro b hb
      rcases (mem_insertBy le x b zs).mp hb with hb | hb
      · subst hb; exact hzx
      · exact hz b hb

theorem pairwise_sortBy {α : Type} {le : α → α → Bool}
    (htot : ∀ a b, le a b = true ∨ le b a = true)
    (htr : ∀ a b c, le a b = true → le b c = true → le a c = true)
    (l : List α) : List.Pairwise (fun a b => le a b = true) (sortBy le l) := by
  induction l with
  | nil => simp [sortBy]
  | cons x xs ih => exact pairwise_insertBy htot htr x ih

/-! ## MatrixMerger lemmas -/

theorem cellAt_eq (m : ExprMatrix) (g s : String) :
    cellAt m g s =
      match alookup m.rows g, idxOf m.cols s with
      | some vs, some i => vs[i]?
      | _, _ => none := rfl

theorem cellAt_of_lookup_idx {m : ExprMatrix} {g s : String} {vs : List (Option ℚ)}
    {i : Nat} (h1 : alookup m.rows g = some vs) (h2 : idxOf m.cols s = some i) :
    cellAt m g s = vs[i]? := by
  simp [cellAt_eq, h1, h2]

theorem cellAt_of_lookup_none {m : ExprMatrix} {g : String}
    (h : alookup m.rows g = none) (s : String) : cellAt m g s = none := by
  rw [cellAt_eq, h]

theorem cellAt_of_idx_none {m : ExprMatrix} {s : String}
    (h : idxOf m.cols s = none) (g : String) : cellAt m g s = none := by
  rw [cellAt_eq, h]
  cases alookup m.rows g <;> rfl

theorem cols_mergeOuter (a b : ExprMatrix) :
    (mergeOuter a b).cols = a.cols ++ b.cols := rfl

theorem mem_keys (m : ExprMatrix) (g : String) :
    g ∈ m.keys ↔ (alookup m.rows g).isSome :=
  (alookup_isSome_iff m.rows g).symm

theorem lookup_of_mem_keys {m : ExprMatrix} {g : String} (h : g ∈ m.keys) :
    ∃ vs, alookup m.rows g = some vs :=
  Option.isSome_iff_exists.mp ((mem_keys m g).mp h)

theorem lookup_of_not_mem_keys {m : ExprMatrix} {g : String} (h : g ∉ m.keys) :
    alookup m.rows g = none :=
  (alookup_eq_none_iff m.rows g).mpr h

theorem lookup_mergeOuter (a b : ExprMatrix) (g : String) :
    alookup (mergeOuter a b).rows g =
      match alookup a.rows g with
      | some vs =>
        some (vs ++ (alookup b.rows g).getD (List.replicate b.cols.length none))
      | none =>
        (alookup b.rows g).map fun vs => List.replicate a.cols.length none ++ vs := by
  show alookup (_ ++ _) g = _
  rw [alookup_append]
  have h1 :
      alookup (a.rows.map fun p =>
          (p.1, p.2 ++ (alookup b.rows p.1).getD (List.replicate b.cols.length none))) g
        = (alookup a.rows g).map fun vs =>
            vs ++ (alookup b.rows g).getD (List.replicate b.cols.length none) :=
    alookup_map (fun k vs => vs ++ (alookup b.rows k).getD (List.replicate b.cols.length none))
      a.rows g
  have h2 :
      alookup ((b.rows.filter fun p => (alookup a.rows p.1).isNone).map fun p =>
          (p.1, List.replicate a.cols.length none ++ p.2)) g
        = (alookup (b.rows.filter fun p => (alookup a.rows p.1).isNone) g).map fun vs =>
            List.replicate a.cols.length none ++ vs :=
    alookup_map (fun _ vs => List.replicate a.cols.length none ++ vs) _ g
  rw [h1]
  cases ha : alookup a.rows g with
  | some vs => simp
  | none =>
    rw [h2, alookup_filter_key (fun k => (alookup a.rows k).isNone) b.rows g,
      if_pos (by simp [ha])]
    simp

theorem mem_keys_mergeOuter (a b : ExprMatrix) (g : String) :
    g ∈ (mergeOuter a b).keys ↔ g ∈ a.keys ∨ g ∈ b.keys := by
  rw [mem_keys, mem_keys, mem_keys, lookup_mergeOuter]
  cases alookup a.rows g <;> cases alookup b.rows g <;> simp

theorem row_length_of_mem_keys {m : ExprMatrix} (hw : m.WF) {g : String} {vs : List (Option ℚ)}
    (h : alookup m.rows g = some vs) : vs.length = m.cols.length :=
  hw.1 (g, vs) (alookup_mem h)

theorem cellAt_mergeOuter_left {a : ExprMatrix} (b : ExprMatrix) (hwa : a.WF)
    {s : String} (hs : s ∈ a.cols) (g : String) :
    cellAt (mergeOuter a b) g s =
      if g ∈ a.keys then cellAt a g s
      else if g ∈ b.keys then some none else none := by
  obtain ⟨i, hi⟩ := Option.isSome_iff_exists.mp ((idxOf_isSome_iff a.cols s).mpr hs)
  have hilt : i < a.cols.length := idxOf_lt_length hi
  have hidx : idxOf (mergeOuter a b).cols s = some i := by
    show idxOf (a.cols ++ b.cols) s = some i
    rw [idxOf_append_left b.cols hs, hi]
  by_cases hga : g ∈ a.keys
  · obtain ⟨vs, hvs⟩ := lookup_of_mem_keys hga
    have hlen : vs.length = a.cols.length := row_length_of_mem_keys hwa hvs
    have hmg : alookup (mergeOuter a b).rows g =
        some (vs ++ (alookup b.rows g).getD (List.replicate b.cols.length none)) := by
      rw [lookup_mergeOuter, hvs]
    rw [if_pos hga, cellAt_of_lookup_idx hmg hidx, cellAt_of_lookup_idx hvs hi,
      List.getElem?_append, if_pos (by omega)]
  · rw [if_neg hga]
    by_cases hgb : g ∈ b.keys
    · obtain ⟨ws, hws⟩ := lookup_of_mem_keys hgb
      have hmg : alookup (mergeOuter a b).rows g =
          some (List.replicate a.cols.length none ++ ws) := by
        rw [lookup_mergeOuter, lookup_of_not_mem_keys hga]
        simp [hws]
      rw [if_pos hgb, cellAt_of_lookup_idx hmg hidx, List.getElem?_append,
        if_pos (by simp [hilt]), List.getElem?_replicate, if_pos hilt]
    · have hmg : alookup (mergeOuter a b).rows g = none := by
        rw [lookup_mergeOuter, lookup_of_not_mem_keys hga]
        simp [lookup_of_not_mem_keys hgb]
      rw [if_neg hgb, cellAt_of_lookup_none hmg]

theorem cellAt_mergeOuter_right (a : ExprMatrix) {b : ExprMatrix} (hwa : a.WF)
    {s : String} (hs : s ∈ b.cols) (hsa : s ∉ a.cols) (g : String) :
    cellAt (mergeOuter a b) g s =
      if g ∈ b.keys then cellAt b g s
      else if g ∈ a.keys then some none else none := by
  obtain ⟨j, hj⟩ := Option.isSome_iff_exists.mp ((idxOf_isSome_iff b.cols s).mpr hs)
  have hjlt : j < b.cols.length := idxOf_lt_length hj
  have hidx : idxOf (mergeOuter a b).cols s = some (j + a.cols.length) := by
    show idxOf (a.cols ++ b.cols) s = _
    rw [idxOf_append_right b.cols hsa, hj]
    rfl
  by_cases hgb : g ∈ b.keys
  · obtain ⟨ws, hws⟩ := lookup_of_mem_keys hgb
    rw [if_pos hgb]
    by_cases hga : g ∈ a.keys
    · obtain ⟨vs, hvs⟩ := lookup_of_mem_keys hga
      have hlen : vs.length = a.cols.length := row_length_of_mem_keys hwa hvs
      have hmg : alookup (mergeOuter a b).rows g = some (vs ++ ws) := by
        rw [lookup_mergeOuter, hvs, hws]
        rfl
      rw [cellAt_of_lookup_idx hmg hidx, cellAt_of_lookup_idx hws hj,
        List.getElem?_append_right (by omega)]
      congr 1
      omega
    · have hmg : alookup (mergeOuter a b).rows g =
          some (List.replicate a.cols.length none ++ ws) := by
        rw [lookup_mergeOuter, lookup_of_not_mem_keys hga]
        simp [hws]
      rw [cellAt_of_lookup_idx hmg hidx, cellAt_of_lookup_idx hws hj,
        List.getElem?_append_right (by simp only [List.length_replicate]; omega),
        List.length_replicate]
      congr 1
      omega
  · rw [if_neg hgb]
    by_cases hga : g ∈ a.keys
    · obtain ⟨vs, hvs⟩ := lookup_of_mem_keys hga
      have hlen : vs.length = a.cols.length := row_length_of_mem_keys hwa hvs
      have hmg : alookup (mergeOuter a b).rows g =
          some (vs ++ List.replicate b.cols.length none) := by
        rw [lookup_mergeOuter, hvs, lookup_of_not_mem_keys hgb]
        rfl
      rw [if_pos hga, cellAt_of_lookup_idx hmg hidx,
        List.getElem?_append_right (by omega), List.getElem?_replicate,
        if_pos (by omega)]
    · have hmg : alookup (mergeOuter a b).rows g = none := by
        rw [lookup_mergeOuter, lookup_of_not_mem_keys hga]
        simp [lookup_of_not_mem_keys hgb]
      rw [if_neg hga, cellAt_of_lookup_none hmg]

theorem keys_mergeOuter_eq (a b : ExprMatrix) :
    (mergeOuter a b).keys =
      a.keys ++ (b.rows.filter fun p => (alookup a.rows p.1).isNone).map Prod.fst := by
  show List.map Prod.fst
      ((a.rows.map fun p =>
        (p.1, p.2 ++ (alookup b.rows p.1).getD (List.replicate b.cols.length none)))
      ++ ((b.rows.filter fun p => (alookup a.rows p.1).isNone).map fun p =>
        (p.1, List.replicate a.cols.length none ++ p.2))) = _
  rw [List.map_append, List.map_map, List.map_map]
  rfl

theorem WF_mergeOuter {a b : ExprMatrix} (hwa : a.WF) (hwb : b.WF)
    (hd : colsDisjoint a b) : (mergeOuter a b).WF := by
  obtain ⟨hla, hka, hca⟩ := hwa
  obtain ⟨hlb, hkb, hcb⟩ := hwb
  refine ⟨?_, ?_, ?_⟩
  · intro p hp
    rcases List.mem_append.mp hp with hp | hp
    · obtain ⟨q, hq, rfl⟩ := List.mem_map.mp hp
      show (q.2 ++ _).length = (a.cols ++ b.cols).length
      rw [List.length_append, List.length_append, hla q hq]
      cases hbq : alookup b.rows q.1 with
      | none => simp
      | some ws =>
        have := hlb (q.1, ws) (alookup_mem hbq)
        simpa using this
    · obtain ⟨q, hq, rfl⟩ := List.mem_map.mp hp
      have hq' : q ∈ b.rows := List.mem_of_mem_filter hq
      show (List.replicate a.cols.length (none : Option ℚ) ++ q.2).length
        = (a.cols ++ b.cols).length
      rw [List.length_append, List.length_append, hlb q hq']
      simp
  · rw [keys_mergeOuter_eq]
    refine List.Nodup.append hka ?_ ?_
    · exact List.Nodup.sublist ((List.filter_sublist b.rows).map Prod.fst) hkb
    · intro g hg1 hg2
      obtain ⟨q, hq, rfl⟩ := List.mem_map.mp hg2
      have hnone : (alookup a.rows q.1).isNone := by
        have := List.of_mem_filter hq
        simpa using this
      have : alookup a.rows q.1 = none := Option.isNone_iff_eq_none.mp hnone
      rw [alookup_eq_none_iff] at this
      exact this hg1
  · show (a.cols ++ b.cols).Nodup
    refine List.Nodup.append hca hcb ?_
    intro s hs1 hs2
    exact hd s hs1 hs2

theorem cellAt_isVal {m : ExprMatrix} (hw : m.WF) (hn : noNaN m) {g s : String}
    (hg : g ∈ m.keys) (hs : s ∈ m.cols) : ∃ v : ℚ, cellAt m g s = some (some v) := by
  obtain ⟨vs, hvs⟩ := lookup_of_mem_keys hg
  obtain ⟨i, hi⟩ := Option.isSome_iff_exists.mp ((idxOf_isSome_iff m.cols s).mpr hs)
  have hilt : i < vs.length := by
    rw [row_length_of_mem_keys hw hvs]
    exact idxOf_lt_length hi
  have hget : vs[i]? = some vs[i] := List.getElem?_eq_getElem hilt
  have hmem : vs[i] ∈ vs := List.getElem_mem hilt
  have hne : vs[i] ≠ none := hn (g, vs) (alookup_mem hvs) _ hmem
  obtain ⟨v, hv⟩ := Option.ne_none_iff_exists'.mp hne
  refine ⟨v, ?_⟩
  rw [cellAt_of_lookup_idx hvs hi, hget, hv]

theorem keys_fillZero (m : ExprMatrix) : (fillZero m).keys = m.keys := by
  show List.map Prod.fst (m.rows.map fun p => (p.1, p.2.map fun v => some (v.getD 0)))
    = m.keys
  rw [List.map_map]
  rfl

theorem cellAt_fillZero (m : ExprMatrix) (g s : String) :
    cellAt (fillZero m) g s = (cellAt m g s).map fun v => some (v.getD 0) := by
  have h1 : alookup (fillZero m).rows g
      = (alookup m.rows g).map fun vs => vs.map fun v => some (v.getD 0) := by
    show alookup (m.rows.map fun p => (p.1, p.2.map fun v => some (v.getD 0))) g = _
    exact alookup_map (fun _ vs => vs.map fun v => some (v.getD 0)) m.rows g
  have h2 : idxOf (fillZero m).cols s = idxOf m.cols s := rfl
  cases ha : alookup m.rows g with
  | none =>
    have hf : alookup (fillZero m).rows g = none := by rw [h1, ha]; rfl
    rw [cellAt_of_lookup_none hf, cellAt_of_lookup_none ha]
    rfl
  | some vs =>
    have hf : alookup (fillZero m).rows g
        = some (vs.map fun v => some (v.getD 0)) := by rw [h1, ha]; rfl
    cases hi : idxOf m.cols s with
    | none =>
      have hfi : idxOf (fillZero m).cols s = none := by rw [h2, hi]
      rw [cellAt_of_idx_none hfi, cellAt_of_idx_none hi]
      rfl
    | some i =>
      have hfi : idxOf (fillZero m).cols s = some i := by rw [h2, hi]
      rw [cellAt_of_lookup_idx hf hfi, cellAt_of_lookup_idx ha hi,
        List.getElem?_map]

theorem mergedInv_step {ms : List ExprMatrix} {acc m' : ExprMatrix}
    (hinv : MergedInv ms acc) (hw : m'.WF)
    (hd : ∀ m ∈ ms, colsDisjoint m m') :
    MergedInv (ms ++ [m']) (mergeOuter acc m') := by
  obtain ⟨hwacc, hcols, hkeys, hcell⟩ := hinv
  have hdisj : colsDisjoint acc m' := by
    intro s hs hsm
    obtain ⟨m, hm, hsmm⟩ := (hcols s).mp hs
    exact hd m hm s hsmm hsm
  refine ⟨WF_mergeOuter hwacc hw hdisj, ?_, ?_, ?_⟩
  · intro s
    show s ∈ acc.cols ++ m'.cols ↔ _
    rw [List.mem_append, hcols s]
    constructor
    · rintro (⟨m, hm, hsm⟩ | hsm)
      · exact ⟨m, List.mem_append.mpr (Or.inl hm), hsm⟩
      · exact ⟨m', List.mem_append.mpr (Or.inr (by simp)), hsm⟩
    · rintro ⟨m, hm, hsm⟩
      rcases List.mem_append.mp hm with hm | hm
      · exact Or.inl ⟨m, hm, hsm⟩
      · have : m = m' := by simpa using hm
        subst this
        exact Or.inr hsm
  · intro g
    rw [mem_keys_mergeOuter, hkeys g]
    constructor
    · rintro (⟨m, hm, hgm⟩ | hgm)
      · exact ⟨m, List.mem_append.mpr (Or.inl hm), hgm⟩
      · exact ⟨m', List.mem_append.mpr (Or.inr (by simp)), hgm⟩
    · rintro ⟨m, hm, hgm⟩
      rcases List.mem_append.mp hm with hm | hm
      · exact Or.inl ⟨m, hm, hgm⟩
      · have : m = m' := by simpa using hm
        subst this
        exact Or.inr hgm
  · intro m hm s hs g
    rcases List.mem_append.mp hm with hm | hm
    · have hsa : s ∈ acc.cols := (hcols s).mpr ⟨m, hm, hs⟩
      rw [cellAt_mergeOuter_left m' hwacc hsa g]
      by_cases hgm : g ∈ m.keys
      · have hga : g ∈ acc.keys := (hkeys g).mpr ⟨m, hm, hgm⟩
        rw [if_pos hga, if_pos hgm, hcell m hm s hs g, if_pos hgm]
      · rw [if_neg hgm]
        by_cases hga : g ∈ acc.keys
        · rw [if_pos hga, hcell m hm s hs g, if_neg hgm, if_pos hga,
            if_pos ((mem_keys_mergeOuter acc m' g).mpr (Or.inl hga))]
        · rw [if_neg hga]
          by_cases hgm' : g ∈ m'.keys
          · rw [if_pos hgm',
              if_pos ((mem_keys_mergeOuter acc m' g).mpr (Or.inr hgm'))]
          · rw [if_neg hgm', if_neg (by
              rw [mem_keys_mergeOuter]
              rintro (h | h)
              · exact hga h
              · exact hgm' h)]
    · have hmm : m = m' := by simpa using hm
      subst hmm
      have hsa : s ∉ acc.cols := by
        intro hsacc
        exact hdisj s hsacc hs
      rw [cellAt_mergeOuter_right acc hwacc hs hsa g]
      by_cases hgm : g ∈ m.keys
      · rw [if_pos hgm, if_pos hgm]
      · rw [if_neg hgm, if_neg hgm]
        by_cases hga : g ∈ acc.keys
        · rw [if_pos hga,
            if_pos ((mem_keys_mergeOuter acc m g).mpr (Or.inl hga))]
        · rw [if_neg hga, if_neg (by
            rw [mem_keys_mergeOuter]
            rintro (h | h)
            · exact hga h
            · exact hgm h)]

theorem mergedInv_single {m : ExprMatrix} (hw : m.WF) : MergedInv [m] m := by
  refine ⟨hw, ?_, ?_, ?_⟩
  · intro s
    simp
  · intro g
    simp
  · intro m0 hm0 s hs g
    have hmm : m0 = m := by simpa using hm0
    subst hmm
    by_cases hg : g ∈ m0.keys
    · rw [if_pos hg]
    · rw [if_neg hg, if_neg hg, cellAt_eq, lookup_of_not_mem_keys hg]

theorem mergedInv_fold (rest : List ExprMatrix) :
    ∀ {acc : ExprMatrix} {done : List ExprMatrix},
    MergedInv done acc → (∀ m ∈ rest, m.WF) →
    (∀ m ∈ done, ∀ m' ∈ rest, colsDisjoint m m') →
    List.Pairwise colsDisjoint rest →
    MergedInv (done ++ rest) (mergeFold acc rest) := by
  induction rest with
  | nil =>
    intro acc done hinv _ _ _
    simpa using hinv
  | cons m' rest' ih =>
    intro acc done hinv hwf hcross hpw
    rw [mergeFold]
    obtain ⟨hpw1, hpw2⟩ := List.pairwise_cons.mp hpw
    have hstep := mergedInv_step hinv (hwf m' (by simp))
      (fun m hm => hcross m hm m' (by simp))
    have hres := ih hstep (fun m hm => hwf m (by simp [hm]))
      (fun m hm m'' hm'' => by
        rcases List.mem_append.mp hm with hm | hm
        · exact hcross m hm m'' (by simp [hm''])
        · have : m = m' := by simpa using hm
          subst this
          exact hpw1 m'' hm'') hpw2
    simpa [List.append_assoc] using hres

/-! ## Claim C1: MatrixMerger union / zero fill -/

/-- C1: for every non-empty list of batch matrices of one kind (TPM,
log-TPM, or counts) — well-formed, `NaN`-free csv matrices with
pairwise-distinct sample columns — the merge succeeds, the merged row-key
set is exactly the union of the inputs' row-key sets, every (gene, sample)
cell whose gene is present in that sample's source batch equals the source
value, and every (gene, sample) cell whose gene is absent from that
sample's source batch equals zero. -/
theorem mergeAll_union_zero_fill (ms : List ExprMatrix) (hne : ms ≠ [])
    (hwf : ∀ m ∈ ms, m.WF) (hnn : ∀ m ∈ ms, noNaN m)
    (hdisj : List.Pairwise colsDisjoint ms) :
    ∃ M, mergeAll ms = some M ∧
      (∀ g, g ∈ M.keys ↔ ∃ m ∈ ms, g ∈ m.keys) ∧
      (∀ m ∈ ms, ∀ s ∈ m.cols, ∀ g, g ∈ M.keys →
        (g ∈ m.keys → cellAt M g s = cellAt m g s) ∧
        (g ∉ m.keys → cellAt M g s = some (some 0))) := by
  cases ms with
  | nil => exact absurd rfl hne
  | cons m0 rest =>
    obtain ⟨hpw1, hpw2⟩ := List.pairwise_cons.mp hdisj
    have h0 : MergedInv [m0] m0 := mergedInv_single (hwf m0 (by simp))
    have hinv : MergedInv (m0 :: rest) (mergeFold m0 rest) := by
      have := mergedInv_fold rest h0 (fun m hm => hwf m (by simp [hm]))
        (fun m hm m' hm' => by
          have hmm : m = m0 := by simpa using hm
          subst hmm
          exact hpw1 m' hm') hpw2
      simpa using this
    obtain ⟨hwA, hcolsA, hkeysA, hcellA⟩ := hinv
    refine ⟨fillZero (mergeFold m0 rest), rfl, ?_, ?_⟩
    · intro g
      rw [keys_fillZero]
      exact hkeysA g
    · intro m hm s hs g hgM
      rw [keys_fillZero] at hgM
      constructor
      · intro hgm
        obtain ⟨v, hv⟩ := cellAt_isVal (hwf m hm) (hnn m hm) hgm hs
        rw [cellAt_fillZero, hcellA m hm s hs g, if_pos hgm, hv]
        rfl
      · intro hgm
        rw [cellAt_fillZero, hcellA m hm s hs g, if_neg hgm, if_pos hgM]
        rfl

/-- Witness for C1 at the spec's concrete example: batches A and B with
genes {g1,g2} and {g2,g3} in distinct sample columns. -/
theorem mergeAll_union_zero_fill_witness :
    (([exMatA, exMatB] : List ExprMatrix) ≠ [] ∧
     (∀ m ∈ [exMatA, exMatB], m.WF) ∧
     (∀ m ∈ [exMatA, exMatB], noNaN m) ∧
     List.Pairwise colsDisjoint [exMatA, exMatB]) ∧
    (∃ M, mergeAll [exMatA, exMatB] = some M ∧
      (∀ g, g ∈ M.keys ↔ ∃ m ∈ [exMatA, exMatB], g ∈ m.keys) ∧
      (∀ m ∈ [exMatA, exMatB], ∀ s ∈ m.cols, ∀ g, g ∈ M.keys →
        (g ∈ m.keys → cellAt M g s = cellAt m g s) ∧
        (g ∉ m.keys → cellAt M g s = some (some 0)))) :=
  ⟨⟨by decide, by decide, by decide, by decide⟩,
    mergeAll_union_zero_fill [exMatA, exMatB]
      (by decide) (by decide) (by decide) (by decide)⟩

/-! ## MatrixMerger batch-walk lemmas -/

theorem stepBatch_not_exists {fs : FS} {d : String} (h : d ∉ fs.dirs)
    (st : MergeState) : stepBatch fs st d = (st, [warnMsg d]) := by
  rw [stepBatch, if_neg h]

theorem runMergeAux_cons (fs : FS) (st : MergeState) (d : String)
    (rest : List String) :
    runMergeAux fs st (d :: rest) =
      ((runMergeAux fs (stepBatch fs st d).1 rest).1,
        (stepBatch fs st d).2 ++ (runMergeAux fs (stepBatch fs st d).1 rest).2) := rfl

theorem runMergeAux_append (fs : FS) (st : MergeState) (xs ys : List String) :
    runMergeAux fs st (xs ++ ys) =
      ((runMergeAux fs (runMergeAux fs st xs).1 ys).1,
        (runMergeAux fs st xs).2 ++ (runMergeAux fs (runMergeAux fs st xs).1 ys).2) := by
  induction xs generalizing st with
  | nil => simp [runMergeAux]
  | cons d rest ih =>
    rw [List.cons_append, runMergeAux_cons, ih (stepBatch fs st d).1, runMergeAux_cons]
    simp [List.append_assoc]

theorem runMergeAux_state_none (fs : FS) (k : MKind) :
    ∀ (dirs : List String) (st : MergeState), st k = none →
    (∀ d ∈ dirs, d ∈ fs.dirs → readKind fs (resolveExprDir fs d) k = none) →
    (runMergeAux fs st dirs).1 k = none := by
  intro dirs
  induction dirs with
  | nil =>
    intro st h _
    exact h
  | cons d rest ih =>
    intro st h hall
    show (runMergeAux fs (stepBatch fs st d).1 rest).1 k = none
    apply ih
    · by_cases hd : d ∈ fs.dirs
      · rw [stepBatch, if_pos hd]
        show (match st k, readKind fs (resolveExprDir fs d) k with
          | none, none => none
          | none, some m => some m
          | some a, none => some a
          | some a, some m => some (mergeOuter a m)) = none
        rw [h, hall d (by simp) hd]
      · rw [stepBatch_not_exists hd]
        exact h
    · intro d' hd' hex
      exact hall d' (by simp [hd']) hex

theorem strAppend_cancel_left {a b c : String} (h : a ++ b = a ++ c) : b = c := by
  have hdata : b.data = c.data := by
    have h2 : (a ++ b).data = (a ++ c).data := by rw [h]
    rw [String.data_append, String.data_append] at h2
    exact List.append_cancel_left h2
  calc b = String.mk b.data := rfl
  _ = String.mk c.data := by rw [hdata]
  _ = c := rfl

theorem outName_ne (pfx : String) {k k' : MKind} (h : k ≠ k') :
    outName pfx k ≠ outName pfx k' := by
  intro hc
  cases k <;> cases k' <;>
    first
      | exact h rfl
      | exact absurd (strAppend_cancel_left hc) (by decide)

/-! ## Claim C6: MatrixMerger directory resolution -/

/-- C6: a missing batch directory yields a warning and is skipped without
affecting the merge of the remaining batches; an existing batch directory
with an `expression_matrices` subdirectory resolves to that subdirectory
as the source of the three matrix files; without the subdirectory it
resolves to the batch directory itself. -/
theorem mergeRun_dir_resolution :
    (∀ (fs : FS) (pre post : List String) (d : String), d ∉ fs.dirs →
      (runMerge fs (pre ++ d :: post)).1 = (runMerge fs (pre ++ post)).1 ∧
      warnMsg d ∈ (runMerge fs (pre ++ d :: post)).2) ∧
    (∀ (fs : FS) (d : String), (d ++ "/expression_matrices") ∈ fs.dirs →
      resolveExprDir fs d = d ++ "/expression_matrices") ∧
    (∀ (fs : FS) (d : String), (d ++ "/expression_matrices") ∉ fs.dirs →
      resolveExprDir fs d = d) := by
  refine ⟨?_, ?_, ?_⟩
  · intro fs pre post d h
    have hstep : stepBatch fs (runMergeAux fs initState pre).1 d
        = ((runMergeAux fs initState pre).1, [warnMsg d]) :=
      stepBatch_not_exists h _
    constructor
    · show (runMergeAux fs initState (pre ++ d :: post)).1
        = (runMergeAux fs initState (pre ++ post)).1
      rw [runMergeAux_append fs initState pre (d :: post),
        runMergeAux_append fs initState pre post, runMergeAux_cons, hstep]
    · show warnMsg d ∈ (runMergeAux fs initState (pre ++ d :: post)).2
      rw [runMergeAux_append fs initState pre (d :: post), runMergeAux_cons, hstep]
      simp
  · intro fs d h
    simp [resolveExprDir, h]
  · intro fs d h
    simp [resolveExprDir, h]

/-- Witness for C6: a missing directory among two, an existing directory
with the subdirectory, and an existing directory without it. -/
theorem mergeRun_dir_resolution_witness :
    ("missing" ∉ (FS.mk ["a"] []).dirs ∧
      ((runMerge (FS.mk ["a"] []) (["a"] ++ "missing" :: [])).1
          = (runMerge (FS.mk ["a"] []) (["a"] ++ [])).1 ∧
        warnMsg "missing" ∈ (runMerge (FS.mk ["a"] []) (["a"] ++ "missing" :: [])).2)) ∧
    (("b" ++ "/expression_matrices") ∈ (FS.mk ["b", "b/expression_matrices"] []).dirs ∧
      resolveExprDir (FS.mk ["b", "b/expression_matrices"] []) "b"
        = "b" ++ "/expression_matrices") ∧
    (("c" ++ "/expression_matrices") ∉ (FS.mk ["c"] []).dirs ∧
      resolveExprDir (FS.mk ["c"] []) "c" = "c") :=
  ⟨⟨by decide, mergeRun_dir_resolution.1 (FS.mk ["a"] []) ["a"] [] "missing" (by decide)⟩,
    ⟨by decide, mergeRun_dir_resolution.2.1 (FS.mk ["b", "b/expression_matrices"] []) "b"
      (by decide)⟩,
    ⟨by decide, mergeRun_dir_resolution.2.2 (FS.mk ["c"] []) "c" (by decide)⟩⟩

/-! ## Claim C8: MatrixMerger empty and missing kinds -/

/-- C8: merging zero batch directories writes no matrix file for any of
the three kinds and an empty summary; more generally, a matrix kind
contributed by no batch produces no output file named for that kind. -/
theorem mergeOutputs_empty_and_missing_kind :
    (∀ (fs : FS) (pfx : String),
      mergeOutputs fs [] pfx = [] ∧ mergeSummary fs [] = "") ∧
    (∀ (fs : FS) (dirs : List String) (pfx : String) (k : MKind),
      (∀ d ∈ dirs, d ∈ fs.dirs → readKind fs (resolveExprDir fs d) k = none) →
      (runMerge fs dirs).1 k = none ∧
      ∀ out ∈ mergeOutputs fs dirs pfx, out.1 ≠ outName pfx k) := by
  constructor
  · intro fs pfx
    constructor
    · simp [mergeOutputs, runMerge, runMergeAux, initState, kindOrder]
    · simp [mergeSummary, runMerge, runMergeAux, initState, kindOrder]
      rfl
  · intro fs dirs pfx k hmiss
    have hnone : (runMerge fs dirs).1 k = none :=
      runMergeAux_state_none fs k dirs initState rfl hmiss
    refine ⟨hnone, ?_⟩
    intro out hout
    obtain ⟨k', hk', hmap⟩ := List.mem_filterMap.mp hout
    cases hsk : (runMerge fs dirs).1 k' with
    | none =>
      rw [hsk] at hmap
      exact absurd hmap (by simp)
    | some a =>
      rw [hsk] at hmap
      simp only [Option.map_some', Option.some.injEq] at hmap
      cases hmap
      by_cases hkk : k' = k
      · subst hkk
        rw [hsk] at hnone
        simp at hnone
      · show outName pfx k' ≠ outName pfx k
        exact outName_ne pfx hkk

/-- Witness for C8: one non-existent batch directory, so no batch
contributes the TPM kind. -/
theorem mergeOutputs_empty_and_missing_kind_witness :
    (∀ d ∈ (["b"] : List String), d ∈ (FS.mk [] []).dirs →
      readKind (FS.mk [] []) (resolveExprDir (FS.mk [] []) d) MKind.tpm = none) ∧
    ((runMerge (FS.mk [] []) ["b"]).1 MKind.tpm = none ∧
      ∀ out ∈ mergeOutputs (FS.mk [] []) ["b"] "merged",
        out.1 ≠ outName "merged" MKind.tpm) :=
  ⟨by decide,
    mergeOutputs_empty_and_missing_kind.2 (FS.mk [] []) ["b"] "merged" MKind.tpm
      (by decide)⟩

/-! ## MetadataCleaner lemmas -/

theorem alookup_build {α : Type} (f : String → α) (cols : List String) (c0 : String) :
    alookup (cols.map fun c => (c, f c)) c0
      = if c0 ∈ cols then some (f c0) else none := by
  induction cols with
  | nil => simp [alookup]
  | cons c rest ih =>
    by_cases h : c = c0
    · subst h
      simp [alookup]
    · simp [alookup, h, ih, Ne.symm h]

theorem getVal_aggRow (cols : List String) (grp : List Row) (c0 : String) :
    getVal (aggRow cols grp) c0 =
      if c0 ∈ cols then
        (if c0 == "Run" then joinSemi (grp.map fun r => getVal r "Run")
          else lastVal grp c0)
      else "" := by
  show (alookup (cols.map fun c =>
      (c, if c == "Run" then joinSemi (grp.map fun r => getVal r "Run")
        else lastVal grp c)) c0).getD "" = _
  rw [alookup_build]
  by_cases h : c0 ∈ cols
  · rw [if_pos h, if_pos h]
    rfl
  · rw [if_neg h, if_neg h]
    rfl

theorem groupAgg_keys (cols : List String) (rows : List Row) :
    (groupAgg cols rows).map Prod.fst
      = sortBy strLeB (((keptRows rows).map expOf).dedup) := by
  show ((sortBy strLeB (((keptRows rows).map expOf).dedup)).map fun e =>
      (e, aggRow cols (groupRows (keptRows rows) e))).map Prod.fst = _
  rw [List.map_map]
  have he : (Prod.fst ∘ fun e =>
      (e, aggRow cols (groupRows (keptRows rows) e))) = id := rfl
  rw [he, List.map_id]

theorem groupRows_ne_nil {rows : List Row} {e : String}
    (h : e ∈ rows.map expOf) : groupRows rows e ≠ [] := by
  obtain ⟨r, hr, rfl⟩ := List.mem_map.mp h
  intro hnil
  have : r ∈ groupRows rows (expOf r) :=
    List.mem_filter.mpr ⟨hr, by simp [expOf]⟩
  rw [hnil] at this
  simp at this

theorem groupRows_sub {rows : List Row} {e : String} {r : Row}
    (h : r ∈ groupRows rows e) : r ∈ rows :=
  List.mem_of_mem_filter h

/-! ## Claim C2: MetadataCleaner grouping -/

/-- C2: after dropping rows whose run accession is empty or the literal
"Run", grouping yields distinct experiment keys (at most one output row
per distinct experiment accession) and no more rows than distinct
experiment accessions; each retained experiment's run field splits on ';'
back into exactly that experiment's input run accessions in original row
order, and every other column holds the last row's value of its group. -/
theorem groupAgg_per_experiment (cols : List String) (rows : List Row)
    (hRun : "Run" ∈ cols)
    (hsemi : ∀ r ∈ keptRows rows, ';' ∉ (getVal r "Run").data) :
    (groupAgg cols rows).length ≤ (((keptRows rows).map expOf).dedup).length ∧
    ((groupAgg cols rows).map Prod.fst).Nodup ∧
    ∀ e ∈ ((keptRows rows).map expOf).dedup,
      (e, aggRow cols (groupRows (keptRows rows) e)) ∈ groupAgg cols rows ∧
      pySplitSemi (getVal (aggRow cols (groupRows (keptRows rows) e)) "Run")
        = (groupRows (keptRows rows) e).map (fun r => getVal r "Run") ∧
      ∀ c ∈ cols, c ≠ "Run" →
        getVal (aggRow cols (groupRows (keptRows rows) e)) c
          = ((groupRows (keptRows rows) e).map (fun r => getVal r c)).getLastD "" := by
  have hperm := perm_sortBy strLeB (((keptRows rows).map expOf).dedup)
  refine ⟨?_, ?_, ?_⟩
  · have h1 : (groupAgg cols rows).length
        = (sortBy strLeB (((keptRows rows).map expOf).dedup)).length := by
      show ((sortBy strLeB (((keptRows rows).map expOf).dedup)).map fun e =>
        (e, aggRow cols (groupRows (keptRows rows) e))).length = _
      rw [List.length_map]
    rw [h1, hperm.length_eq]
  · rw [groupAgg_keys]
    exact hperm.symm.nodup (List.nodup_dedup _)
  · intro e he
    have hes : e ∈ sortBy strLeB (((keptRows rows).map expOf).dedup) :=
      hperm.mem_iff.mpr he
    have hgrp_ne : groupRows (keptRows rows) e ≠ [] :=
      groupRows_ne_nil (List.mem_dedup.mp he)
    refine ⟨?_, ?_, ?_⟩
    · show (e, aggRow cols (groupRows (keptRows rows) e)) ∈
        (sortBy strLeB (((keptRows rows).map expOf).dedup)).map fun e =>
          (e, aggRow cols (groupRows (keptRows rows) e))
      exact List.mem_map.mpr ⟨e, hes, rfl⟩
    · rw [getVal_aggRow, if_pos hRun, if_pos (by decide)]
      refine pySplitSemi_joinSemi ?_ ?_
      · intro hnil
        exact hgrp_ne (by simpa using hnil)
      · intro x hx
        obtain ⟨r, hr, rfl⟩ := List.mem_map.mp hx
        exact hsemi r (groupRows_sub hr)
    · intro c hc hcRun
      rw [getVal_aggRow, if_pos hc, if_neg (by simpa using hcRun)]
      rfl

/-- Witness for C2 on a three-experiment-row table with a duplicate
experiment and a dropped blank run row. -/
theorem groupAgg_per_experiment_witness :
    (("Run" ∈ ["Experiment", "Run", "X"]) ∧
      (∀ r ∈ keptRows
          [[("Experiment", "E1"), ("Run", "R1"), ("X", "x1")],
           [("Experiment", "E2"), ("Run", "R2"), ("X", "x2")],
           [("Experiment", "E1"), ("Run", "R3"), ("X", "x3")],
           [("Experiment", "E1"), ("Run", ""), ("X", "x4")]],
        ';' ∉ (getVal r "Run").data)) ∧
    ((groupAgg ["Experiment", "Run", "X"]
        [[("Experiment", "E1"), ("Run", "R1"), ("X", "x1")],
         [("Experiment", "E2"), ("Run", "R2"), ("X", "x2")],
         [("Experiment", "E1"), ("Run", "R3"), ("X", "x3")],
         [("Experiment", "E1"), ("Run", ""), ("X", "x4")]]).length ≤
      (((keptRows
        [[("Experiment", "E1"), ("Run", "R1"), ("X", "x1")],
         [("Experiment", "E2"), ("Run", "R2"), ("X", "x2")],
         [("Experiment", "E1"), ("Run", "R3"), ("X", "x3")],
         [("Experiment", "E1"), ("Run", ""), ("X", "x4")]]).map expOf).dedup).length ∧
      ((groupAgg ["Experiment", "Run", "X"]
        [[("Experiment", "E1"), ("Run", "R1"), ("X", "x1")],
         [("Experiment", "E2"), ("Run", "R2"), ("X", "x2")],
         [("Experiment", "E1"), ("Run", "R3"), ("X", "x3")],
         [("Experiment", "E1"), ("Run", ""), ("X", "x4")]]).map Prod.fst).Nodup ∧
      ∀ e ∈ (((keptRows
        [[("Experiment", "E1"), ("Run", "R1"), ("X", "x1")],
         [("Experiment", "E2"), ("Run", "R2"), ("X", "x2")],
         [("Experiment", "E1"), ("Run", "R3"), ("X", "x3")],
         [("Experiment", "E1"), ("Run", ""), ("X", "x4")]]).map expOf).dedup),
        (e, aggRow ["Experiment", "Run", "X"]
            (groupRows (keptRows
          [[("Experiment", "E1"), ("Run", "R1"), ("X", "x1")],
           [("Experiment", "E2"), ("Run", "R2"), ("X", "x2")],
           [("Experiment", "E1"), ("Run", "R3"), ("X", "x3")],
           [("Experiment", "E1"), ("Run", ""), ("X", "x4")]]) e)) ∈
          groupAgg ["Experiment", "Run", "X"]
          [[("Experiment", "E1"), ("Run", "R1"), ("X", "x1")],
           [("Experiment", "E2"), ("Run", "R2"), ("X", "x2")],
           [("Experiment", "E1"), ("Run", "R3"), ("X", "x3")],
           [("Experiment", "E1"), ("Run", ""), ("X", "x4")]] ∧
        pySplitSemi (getVal (aggRow ["Experiment", "Run", "X"]
            (groupRows (keptRows
          [[("Experiment", "E1"), ("Run", "R1"), ("X", "x1")],
           [("Experiment", "E2"), ("Run", "R2"), ("X", "x2")],
           [("Experiment", "E1"), ("Run", "R3"), ("X", "x3")],
           [("Experiment", "E1"), ("Run", ""), ("X", "x4")]]) e)) "Run")
          = (groupRows (keptRows
          [[("Experiment", "E1"), ("Run", "R1"), ("X", "x1")],
           [("Experiment", "E2"), ("Run", "R2"), ("X", "x2")],
           [("Experiment", "E1"), ("Run", "R3"), ("X", "x3")],
           [("Experiment", "E1"), ("Run", ""), ("X", "x4")]]) e).map
            (fun r => getVal r "Run") ∧
        ∀ c ∈ ["Experiment", "Run", "X"], c ≠ "Run" →
          getVal (aggRow ["Experiment", "Run", "X"]
              (groupRows (keptRows
            [[("Experiment", "E1"), ("Run", "R1"), ("X", "x1")],
             [("Experiment", "E2"), ("Run", "R2"), ("X", "x2")],
             [("Experiment", "E1"), ("Run", "R3"), ("X", "x3")],
             [("Experiment", "E1"), ("Run", ""), ("X", "x4")]]) e)) c
            = ((groupRows (keptRows
            [[("Experiment", "E1"), ("Run", "R1"), ("X", "x1")],
             [("Experiment", "E2"), ("Run", "R2"), ("X", "x2")],
             [("Experiment", "E1"), ("Run", "R3"), ("X", "x3")],
             [("Experiment", "E1"), ("Run", ""), ("X", "x4")]]) e).map
              (fun r => getVal r c)).getLastD "") :=
  ⟨⟨by decide, by decide⟩,
    groupAgg_per_experiment ["Experiment", "Run", "X"]
      [[("Experiment", "E1"), ("Run", "R1"), ("X", "x1")],
       [("Experiment", "E2"), ("Run", "R2"), ("X", "x2")],
       [("Experiment", "E1"), ("Run", "R3"), ("X", "x3")],
       [("Experiment", "E1"), ("Run", ""), ("X", "x4")]]
      (by decide) (by decide)⟩

/-! ## Claim C4: MetadataCleaner layout filter -/

/-- C4: a row passes the layout filter under 'paired' iff its library
layout value uppercases to PAIRED, under 'single' iff it uppercases to
SINGLE, and under 'both' iff it uppercases to PAIRED or SINGLE — matching
case-insensitively in the row's value and dropping any other layout value
even under 'both'. -/
theorem layoutFilter_membership (rows : List Row) (r : Row) :
    (r ∈ layoutFilter "paired" rows ↔
      r ∈ rows ∧ pyUpper (getVal r "LibraryLayout") = "PAIRED") ∧
    (r ∈ layoutFilter "single" rows ↔
      r ∈ rows ∧ pyUpper (getVal r "LibraryLayout") = "SINGLE") ∧
    (r ∈ layoutFilter "both" rows ↔
      r ∈ rows ∧ (pyUpper (getVal r "LibraryLayout") = "PAIRED" ∨
        pyUpper (getVal r "LibraryLayout") = "SINGLE")) := by
  refine ⟨?_, ?_, ?_⟩
  · rw [layoutFilter, if_pos (by decide)]
    simp [List.mem_filter]
  · rw [layoutFilter, if_neg (by decide), if_pos (by decide)]
    simp [List.mem_filter]
  · rw [layoutFilter, if_neg (by decide), if_neg (by decide)]
    simp [List.mem_filter, List.elem_iff]

/-! ## Claim C9: layout filter idempotence -/

/-- C9: applying the layout filter twice with the same layout string gives
the same table as applying it once, for every layout argument. -/
theorem layoutFilter_idempotent (layout : String) (rows : List Row) :
    layoutFilter layout (layoutFilter layout rows) = layoutFilter layout rows := by
  unfold layoutFilter
  by_cases h1 : (pyLower layout == "paired") = true
  · simp [h1, List.filter_filter, Bool.and_self]
  · by_cases h2 : (pyLower layout == "single") = true
    · simp [h1, h2, List.filter_filter, Bool.and_self]
    · simp [h1, h2, List.filter_filter, Bool.and_self]

/-! ## Claim C7: release-date coercion and descending sort -/

theorem dateKeyGeB_total (a b : Option Nat) :
    dateKeyGeB a b = true ∨ dateKeyGeB b a = true := by
  cases a with
  | none => cases b <;> simp [dateKeyGeB]
  | some x =>
    cases b with
    | none => simp [dateKeyGeB]
    | some y =>
      simp only [dateKeyGeB, decide_eq_true_eq]
      omega

theorem dateKeyGeB_trans (a b c : Option Nat) (h1 : dateKeyGeB a b = true)
    (h2 : dateKeyGeB b c = true) : dateKeyGeB a c = true := by
  cases a <;> cases b <;> cases c <;> simp_all [dateKeyGeB] <;> omega

/-- C7: the release-date step replaces the column by its `%Y-%m-%d` parse
with unparseable values coerced to the null sentinel (the key of each
output row is exactly the parse of its `ReleaseDate` field), permutes the
rows, sorts them descending by the parsed date, and places every null-date
row after every row with a valid date. -/
theorem releaseSort_spec (rows : List Row) :
    (releaseSort rows).Perm
      (rows.map fun r => (parseDate (getVal r "ReleaseDate"), r)) ∧
    (∀ p ∈ releaseSort rows, p.1 = parseDate (getVal p.2 "ReleaseDate")) ∧
    List.Pairwise (fun p q => dateKeyGeB p.1 q.1 = true) (releaseSort rows) ∧
    (∀ (i j : Nat) (hi : i < (releaseSort rows).length)
      (hj : j < (releaseSort rows).length), i < j →
      ((releaseSort rows)[i]).1 = none → ((releaseSort rows)[j]).1 = none) := by
  have hperm : (releaseSort rows).Perm
      (rows.map fun r => (parseDate (getVal r "ReleaseDate"), r)) :=
    perm_sortBy _ _
  have hpw : List.Pairwise (fun p q : Option Nat × Row => dateKeyGeB p.1 q.1 = true)
      (releaseSort rows) :=
    pairwise_sortBy (fun (p q : Option Nat × Row) => dateKeyGeB_total p.1 q.1)
      (fun (p q t : Option Nat × Row) ha hb => dateKeyGeB_trans p.1 q.1 t.1 ha hb) _
  refine ⟨hperm, ?_, hpw, ?_⟩
  · intro p hp
    obtain ⟨r, _, rfl⟩ := List.mem_map.mp (hperm.mem_iff.mp hp)
    rfl
  · intro i j hi hj hij hni
    have hrel := List.pairwise_iff_getElem.mp hpw i j hi hj hij
    rw [hni] at hrel
    cases hc : ((releaseSort rows)[j]).1 with
    | none => rfl
    | some y =>
      rw [hc] at hrel
      simp [dateKeyGeB] at hrel

/-- Witness for C7: two unparseable release dates; the first null key
forces the second position to be null as well. -/
theorem releaseSort_spec_witness :
    ((0:Nat) < 1 ∧
      ((releaseSort [[("ReleaseDate", "oops")], [("ReleaseDate", "2023-99-99")]]).get
        ⟨0, by decide⟩).1 = none) ∧
    ((releaseSort [[("ReleaseDate", "oops")], [("ReleaseDate", "2023-99-99")]]).get
      ⟨1, by decide⟩).1 = none :=
  ⟨⟨by decide, by decide⟩,
    (releaseSort_spec [[("ReleaseDate", "oops")], [("ReleaseDate", "2023-99-99")]]).2.2.2
      0 1 (by decide) (by decide) (by decide) (by decide)⟩

/-! ## Claim C5: strain filter (corrected) -/

/-- C5 counterexample: the strain string "musculus " is non-empty, the
script keeps the row with scientific name "Mus musculus" (it strips the
strain before matching), yet no whitespace token of the name equals or
contains the literal strain string "musculus " even case-insensitively —
so keeping is not equivalent to the claim's match criterion on the strain
string itself. -/
theorem strainFilter_unstripped_counterexample :
    ("musculus " : String) ≠ "" ∧
    strainFilter "musculus " [[("ScientificName", "Mus musculus")]]
      = [[("ScientificName", "Mus musculus")]] ∧
    match_tokens (pyLower "musculus ") "Mus musculus" = false :=
  ⟨by decide, by decide, by decide⟩

/-- C5 (amended): for every strain string whose whitespace-stripped form
is non-empty, a row is kept iff some whitespace-delimited token of its
scientific-name value equals the stripped strain or contains it as a
substring, comparing case-insensitively. -/
theorem strainFilter_membership (strain : String) (rows : List Row) (r : Row)
    (hq : pyStrip strain ≠ "") :
    r ∈ strainFilter strain rows ↔
      r ∈ rows ∧
        match_tokens (pyLower (pyStrip strain)) (getVal r "ScientificName") = true := by
  have hs : ¬((strain == "") = true) := by
    intro h
    have : strain = "" := by simpa using h
    subst this
    exact hq rfl
  have hs2 : ¬((pyStrip strain == "") = true) := by
    intro h
    exact hq (by simpa using h)
  rw [strainFilter, if_neg hs, if_neg hs2, List.mem_filter]

/-- Witness for C5 at the spec's example: strain "musculus" keeps
"Mus musculus" and (by the match criterion) drops "Homo sapiens". -/
theorem strainFilter_membership_witness :
    (pyStrip "musculus" ≠ "") ∧
    ([("ScientificName", "Mus musculus")] ∈
        strainFilter "musculus"
          [[("ScientificName", "Mus musculus")], [("ScientificName", "Homo sapiens")]] ↔
      [("ScientificName", "Mus musculus")] ∈
          [[("ScientificName", "Mus musculus")], [("ScientificName", "Homo sapiens")]] ∧
        match_tokens (pyLower (pyStrip "musculus"))
          (getVal [("ScientificName", "Mus musculus")] "ScientificName") = true) :=
  ⟨by decide,
    strainFilter_membership "musculus"
      [[("ScientificName", "Mus musculus")], [("ScientificName", "Homo sapiens")]]
      [("ScientificName", "Mus musculus")] (by decide)⟩

/-! ## SamplesheetBuilder lemmas -/

theorem sublist_flatMap_of_mem {α β : Type} {x : α} {l : List α} (h : x ∈ l)
    (f : α → List β) : (f x).Sublist (l.flatMap f) := by
  induction l with
  | nil => simp at h
  | cons y ys ih =>
    rw [List.flatMap_cons]
    rcases List.mem_cons.mp h with h | h
    · subst h
      exact List.sublist_append_left _ _
    · exact (ih h).trans (List.sublist_append_right _ _)

theorem filterMap_strip_entries (sid : String) (row : Row) (l : List String) :
    (l.filterMap fun raw =>
        if pyStrip raw == "" then none else some (mkEntry sid row (pyStrip raw)))
      = ((l.map pyStrip).filter fun t => !(t == "")).map (mkEntry sid row) := by
  induction l with
  | nil => rfl
  | cons x xs ih =>
    by_cases h : (pyStrip x == "") = true
    · simp only [List.filterMap_cons, h, if_pos h, List.map_cons, List.filter_cons]
      rw [ih]
      simp [h]
    · simp only [List.filterMap_cons, if_neg h, List.map_cons, List.filter_cons]
      rw [ih]
      simp [h]

theorem entriesFor_eq (sid : String) (row : Row) :
    entriesFor sid row =
      (((pySplitSemi (getVal row "Run")).map pyStrip).filter fun t => !(t == "")).map
        (mkEntry sid row) := by
  show (pySplitSemi (getVal row "Run")).filterMap (fun raw =>
      if pyStrip raw == "" then none else some (mkEntry sid row (pyStrip raw))) = _
  exact filterMap_strip_entries sid row _

theorem seqFiles_ne_empty (a b : String) : "seqFiles/" ++ a ++ b ≠ "" := by
  intro h
  have hlen : ("seqFiles/" ++ a ++ b).data.length = 0 := by rw [h]; rfl
  rw [String.data_append, String.data_append, List.length_append,
    List.length_append] at hlen
  have h9 : ("seqFiles/" : String).data.length = 9 := by decide
  omega

/-! ## Claim C3: SamplesheetBuilder rows (corrected) -/

/-- C3 counterexample: on the spec's concrete example (`id=SRX1`,
`Run="SRR1;SRR2"`, `LibraryLayout=PAIRED`, batch `{SRX1}`) the output has
exactly the two claimed row ids, but the first fastq field is
`seqFiles/SRR1_1.fastq.gz`, not the claimed `SRR1_1.fastq.gz`. -/
theorem buildSamplesheet_path_counterexample :
    (buildSamplesheet
        [("SRX1", [("Run", "SRR1;SRR2"), ("LibraryLayout", "PAIRED")])]
        ["SRX1"]).map SheetRow.id = ["SRX1_SRR1", "SRX1_SRR2"] ∧
    (buildSamplesheet
        [("SRX1", [("Run", "SRR1;SRR2"), ("LibraryLayout", "PAIRED")])]
        ["SRX1"]).map SheetRow.fastq_1
      = ["seqFiles/SRR1_1.fastq.gz", "seqFiles/SRR2_1.fastq.gz"] ∧
    ("seqFiles/SRR1_1.fastq.gz" : String) ≠ "SRR1_1.fastq.gz" :=
  ⟨by decide, by decide, by decide⟩

/-- C3 (amended): for every metadata row whose index is in the batch set,
the samplesheet contains, contiguously, one row per non-blank stripped run
ID from splitting the run field on ';'; each row's identifier is
`<experiment>_<run>`; for PAIRED layout the fastq fields are
`seqFiles/<run>_1.fastq.gz` and `seqFiles/<run>_2.fastq.gz`, both
non-empty; for any other layout the first is `seqFiles/<run>.fastq.gz`
and the second is empty. -/
theorem buildSamplesheet_rows (meta : List (String × Row)) (batch : List String)
    (sid : String) (row : Row) (hmem : (sid, row) ∈ meta)
    (hb : batch.contains sid = true) :
    (entriesFor sid row).Sublist (buildSamplesheet meta batch) ∧
    entriesFor sid row =
      (((pySplitSemi (getVal row "Run")).map pyStrip).filter fun t => !(t == "")).map
        (mkEntry sid row) ∧
    ∀ rid : String,
      (mkEntry sid row rid).id = sid ++ "_" ++ rid ∧
      (pyUpper (getValD row "LibraryLayout" "SINGLE") = "PAIRED" →
        (mkEntry sid row rid).fastq_1 = "seqFiles/" ++ rid ++ "_1.fastq.gz" ∧
        (mkEntry sid row rid).fastq_2 = "seqFiles/" ++ rid ++ "_2.fastq.gz" ∧
        (mkEntry sid row rid).fastq_1 ≠ "" ∧ (mkEntry sid row rid).fastq_2 ≠ "") ∧
      (pyUpper (getValD row "LibraryLayout" "SINGLE") ≠ "PAIRED" →
        (mkEntry sid row rid).fastq_1 = "seqFiles/" ++ rid ++ ".fastq.gz" ∧
        (mkEntry sid row rid).fastq_2 = "") := by
  refine ⟨?_, entriesFor_eq sid row, ?_⟩
  · have h2 : (sid, row) ∈ meta.filter fun p => batch.contains p.1 :=
      List.mem_filter.mpr ⟨hmem, by simpa using hb⟩
    exact sublist_flatMap_of_mem h2 fun p => entriesFor p.1 p.2
  · intro rid
    by_cases h : (pyUpper (getValD row "LibraryLayout" "SINGLE") == "PAIRED") = true
    · have hP : pyUpper (getValD row "LibraryLayout" "SINGLE") = "PAIRED" := by
        simpa using h
      refine ⟨?_, fun _ => ⟨?_, ?_, ?_, ?_⟩, fun hne => absurd hP hne⟩
      · rw [mkEntry, if_pos h]
      · rw [mkEntry, if_pos h]
      · rw [mkEntry, if_pos h]
      · rw [mkEntry, if_pos h]
        exact seqFiles_ne_empty rid "_1.fastq.gz"
      · rw [mkEntry, if_pos h]
        exact seqFiles_ne_empty rid "_2.fastq.gz"
    · have hP : pyUpper (getValD row "LibraryLayout" "SINGLE") ≠ "PAIRED" := by
        simpa using h
      refine ⟨?_, fun heq => absurd heq hP, fun _ => ⟨?_, ?_⟩⟩
      · rw [mkEntry, if_neg h]
      · rw [mkEntry, if_neg h]
      · rw [mkEntry, if_neg h]

/-- Witness for C3 at the spec's example row. -/
theorem buildSamplesheet_rows_witness :
    ((("SRX1", exSheetRow) ∈ ([("SRX1", exSheetRow)] : List (String × Row)) ∧
      (["SRX1"] : List String).contains "SRX1" = true)) ∧
    ((entriesFor "SRX1" exSheetRow).Sublist
        (buildSamplesheet [("SRX1", exSheetRow)] ["SRX1"]) ∧
      entriesFor "SRX1" exSheetRow =
        (((pySplitSemi (getVal exSheetRow "Run")).map pyStrip).filter
          fun t => !(t == "")).map (mkEntry "SRX1" exSheetRow) ∧
      ∀ rid : String,
        (mkEntry "SRX1" exSheetRow rid).id = "SRX1" ++ "_" ++ rid ∧
        (pyUpper (getValD exSheetRow "LibraryLayout" "SINGLE") = "PAIRED" →
          (mkEntry "SRX1" exSheetRow rid).fastq_1
              = "seqFiles/" ++ rid ++ "_1.fastq.gz" ∧
          (mkEntry "SRX1" exSheetRow rid).fastq_2
              = "seqFiles/" ++ rid ++ "_2.fastq.gz" ∧
          (mkEntry "SRX1" exSheetRow rid).fastq_1 ≠ "" ∧
          (mkEntry "SRX1" exSheetRow rid).fastq_2 ≠ "") ∧
        (pyUpper (getValD exSheetRow "LibraryLayout" "SINGLE") ≠ "PAIRED" →
          (mkEntry "SRX1" exSheetRow rid).fastq_1
              = "seqFiles/" ++ rid ++ ".fastq.gz" ∧
          (mkEntry "SRX1" exSheetRow rid).fastq_2 = "")) :=
  ⟨⟨by decide, by decide⟩,
    buildSamplesheet_rows [("SRX1", exSheetRow)] ["SRX1"] "SRX1" exSheetRow
      (by decide) (by decide)⟩

/-! ## Claim C10: non-paired layout fallback -/

/-- C10: the paired/single decision is made on the uppercased layout
value (default `SINGLE` when the column is absent): the emitted layout
column always equals the uppercased value lowercased, any value whose
uppercasing is not exactly `PAIRED` (such as `MATE-PAIR` or the empty
string) produces the single-end shape with first fastq path
`seqFiles/<run>.fastq.gz` and empty second path, while lowercase
`paired` uppercases to `PAIRED` and so does not. -/
theorem mkEntry_layout_fallback (sid : String) (row : Row) (rid : String) :
    (mkEntry sid row rid).layout
        = pyLower (pyUpper (getValD row "LibraryLayout" "SINGLE")) ∧
    (pyUpper (getValD row "LibraryLayout" "SINGLE") ≠ "PAIRED" →
      (mkEntry sid row rid).fastq_1 = "seqFiles/" ++ rid ++ ".fastq.gz" ∧
      (mkEntry sid row rid).fastq_2 = "") ∧
    pyUpper "MATE-PAIR" ≠ "PAIRED" ∧ pyUpper "" ≠ "PAIRED" ∧
    pyUpper "paired" = "PAIRED" := by
  refine ⟨?_, ?_, by decide, by decide, by decide⟩
  · by_cases h : (pyUpper (getValD row "LibraryLayout" "SINGLE") == "PAIRED") = true
    · rw [mkEntry, if_pos h]
    · rw [mkEntry, if_neg h]
  · intro hne
    have h : ¬((pyUpper (getValD row "LibraryLayout" "SINGLE") == "PAIRED") = true) := by
      simpa using hne
    rw [mkEntry, if_neg h]
    exact ⟨rfl, rfl⟩

/-- Witness for C10 with layout `MATE-PAIR`. -/
theorem mkEntry_layout_fallback_witness :
    (pyUpper (getValD [("LibraryLayout", "MATE-PAIR")] "LibraryLayout" "SINGLE")
        ≠ "PAIRED") ∧
    ((mkEntry "SRX1" [("LibraryLayout", "MATE-PAIR")] "SRR9").fastq_1
        = "seqFiles/" ++ "SRR9" ++ ".fastq.gz" ∧
      (mkEntry "SRX1" [("LibraryLayout", "MATE-PAIR")] "SRR9").fastq_2 = "") :=
  ⟨by decide,
    (mkEntry_layout_fallback "SRX1" [("LibraryLayout", "MATE-PAIR")] "SRR9").2.1
      (by decide)⟩

end Mapped
